import Mathlib

/-!
Verification development for the MIDI-to-notation conversion pipeline of the
audio-to-midi-frontend repository (`src/services/midiProcessor.js`).

The JavaScript module exports four functions over parsed MIDI data:
`convertNoteToABC`, `convertMidiToABC`, `convertMidiToVexFlow` and
`getMidiSummary`.  JavaScript numbers are embedded as rationals (`ℚ`),
strings as `String`, absent (`undefined`) object fields as `Option`, and the
`try/catch` blocks that swallow the `TypeError` raised by a property access
on `null` are embedded by letting the model-level functions take an
`Option MidiData` whose `none` case returns the catch-branch fallback.
-/

namespace MidiProc

/-- One parsed MIDI note, as produced by `parseMidiBlob`: the fields
`name` (e.g. "C#5"), `midi`, `time`, `duration`, `velocity` of the
JavaScript note object (the derived `octave`/`pitch` fields are never read
by the converters and are omitted). -/
structure NoteL where
  name : String
  midi : Int
  time : ℚ
  duration : ℚ
  velocity : ℚ
deriving Repr, DecidableEq

/-- One parsed MIDI track.  `instrument` is the value of
`track.instrument?.name`: `none` when the track has no instrument object or
the instrument has no name. -/
structure TrackL where
  name : Option String
  instrument : Option String
  notes : List NoteL
deriving Repr, DecidableEq

/-- The parsed MIDI data object (`midiData`). -/
structure MidiData where
  name : Option String
  duration : ℚ
  tracks : List TrackL
deriving Repr, DecidableEq

/-- JavaScript `x || d` on an optional string `x`: the default is used both
when `x` is absent (`undefined`) and when it is the empty string, because
`""` is falsy. -/
def jsOr (x : Option String) (d : String) : String :=
  match x with
  | none => d
  | some s => if s = "" then d else s

/-- The first maximal digit run of `note.name`, i.e. the JavaScript
`name.match(/\d+/)?.[0]`, as a character list (`none` when there is no
digit). -/
def firstDigitRun : List Char → Option (List Char)
  | [] => none
  | c :: cs => if c.isDigit then some (c :: cs.takeWhile Char.isDigit)
               else firstDigitRun cs

/-- JavaScript `name.replace(/\d+/, '')`: remove the first maximal digit
run, leaving everything else (including any later digits) in place. -/
def stripFirstDigitRun : List Char → List Char
  | [] => []
  | c :: cs => if c.isDigit then cs.dropWhile Char.isDigit
               else c :: stripFirstDigitRun cs

/-- Decimal value of a digit run (`parseInt` on a nonempty digit string). -/
def digitsToNat (ds : List Char) : Nat :=
  ds.foldl (fun a c => a * 10 + (c.toNat - 48)) 0

/-- The octave computation
`parseInt(note.name.match(/\d+/)?.[0]) || 4`:
`4` both when the name has no digits (`parseInt(undefined)` is `NaN`,
falsy) and when the parsed value is `0` (also falsy). -/
def parseOctaveJS (name : String) : Nat :=
  match firstDigitRun name.toList with
  | none => 4
  | some ds => let v := digitsToNat ds; if v = 0 then 4 else v

/-- The `noteMap` object literal of `convertNoteToABC` as a finite map on
its own twelve keys (sharp names map to a `^`-prefixed ABC pitch).
JavaScript property access additionally consults `Object.prototype` for
names outside these keys; that inherited-key behaviour is modelled
separately by `objectProtoKeys` and `convertNoteToABCJs` below. -/
def noteMapABC : String → Option String
  | "C" => some "C"
  | "C#" => some "^C"
  | "D" => some "D"
  | "D#" => some "^D"
  | "E" => some "E"
  | "F" => some "F"
  | "F#" => some "^F"
  | "G" => some "G"
  | "G#" => some "^G"
  | "A" => some "A"
  | "A#" => some "^A"
  | "B" => some "B"
  | _ => none

/-- The apostrophe character used for ABC octave-up marks. -/
def apostrophe : Char := Char.ofNat 39

/-- JavaScript `s.toLowerCase()` on the ASCII strings produced here:
character-wise lower-casing. -/
def jsToLowerCase (s : String) : String :=
  String.mk (s.data.map Char.toLower)

/-- The octave block of `convertNoteToABC`: for `octave >= 5` lower-case the
note and append one apostrophe per loop iteration `i = 5 .. octave-1`; for
`octave < 4` append one comma per iteration `i = octave .. 3`; otherwise
leave the note unchanged. -/
def applyOctaveABC (abcNote : String) (octave : Nat) : String :=
  if 5 ≤ octave then
    jsToLowerCase abcNote ++ String.mk (List.replicate (octave - 5) apostrophe)
  else if octave < 4 then
    abcNote ++ String.mk (List.replicate (4 - octave) ',')
  else abcNote

/-- Value of the local `abcNote` after the octave block: map lookup with
fallback `'C'` (`noteMap[noteName] || 'C'`), then the octave block. -/
def abcPitchPart (name : String) : String :=
  let noteName := String.mk (stripFirstDigitRun name.toList)
  let octave := parseOctaveJS name
  applyOctaveABC ((noteMapABC noteName).getD "C") octave

/-- The duration suffix appended at the end of `convertNoteToABC`
(threshold chain on `note.duration`). -/
def abcDurationSuffix (d : ℚ) : String :=
  if d < 1/4 then "/4"
  else if d < 1/2 then "/2"
  else if d < 1 then ""
  else if d < 2 then "2"
  else "4"

/-- Function `convertNoteToABC(note)`: the pitch-and-octave part followed by the
duration suffix. -/
def convertNoteToABC (note : NoteL) : String :=
  abcPitchPart note.name ++ abcDurationSuffix note.duration

/-- The VexFlow duration code chain of `convertMidiToVexFlow` (same
thresholds as `abcDurationSuffix`, different vocabulary). -/
def vexDurationCode (d : ℚ) : String :=
  if d < 1/4 then "16"
  else if d < 1/2 then "8"
  else if d < 1 then "q"
  else if d < 2 then "h"
  else "w"

/-- JavaScript `name.replace(/(\d+)/, '/$1')`: insert a `/` in front of the
first maximal digit run (used for VexFlow keys, e.g. "C#5" becomes
"C#/5"). -/
def insertSlashBeforeDigits : List Char → List Char
  | [] => []
  | c :: cs => if c.isDigit then '/' :: c :: cs
               else c :: insertSlashBeforeDigits cs

/-- One VexFlow note descriptor. -/
structure VexNote where
  keys : List String
  duration : String
  midi : Int
  time : ℚ
deriving Repr, DecidableEq

/-- The loop body of `convertMidiToVexFlow`: the descriptor built for one
note. -/
def noteToVexFlow (note : NoteL) : VexNote :=
  { keys := [String.mk (insertSlashBeforeDigits note.name.toList)]
    duration := vexDurationCode note.duration
    midi := note.midi
    time := note.time }

/-- Stable insertion of a note into a list: the note is placed before the
first element whose `time` is not smaller.  This is the insertion step of
the stable sort by `time`. -/
def insertByTime (x : NoteL) : List NoteL → List NoteL
  | [] => [x]
  | y :: ys => if x.time ≤ y.time then x :: y :: ys else y :: insertByTime x ys

/-- The JavaScript `[...].sort((a, b) => a.time - b.time)` used by both
encoders: `Array.prototype.sort` with a numeric-key comparator is (per the
ECMAScript specification) the stable sort by that key, embedded here as
stable insertion sort. -/
def sortNotesByTime : List NoteL → List NoteL
  | [] => []
  | x :: xs => insertByTime x (sortNotesByTime xs)

/-- The header part of `convertMidiToABC`: index, title
(`midiData.name || 'Transcribed Audio'`), fixed meter, unit length and
key, each on its own line. -/
def abcHeader (name : Option String) : String :=
  "X:1\n" ++ "T:" ++ jsOr name "Transcribed Audio" ++ "\n"
    ++ "M:4/4\n" ++ "L:1/4\n" ++ "K:C\n"

/-- The text appended for the note at (0-based) index `i` of the sorted
list of length `n` inside the `forEach` loop of `convertMidiToABC`: the
token, then a space when the note is not the last one
(`index < sortedNotes.length - 1`), then a newline when `(index + 1) % 8
=== 0`. -/
def abcNotePiece (n i : Nat) (note : NoteL) : String :=
  convertNoteToABC note
    ++ (if i < n - 1 then " " else "")
    ++ (if (i + 1) % 8 = 0 then "\n" else "")

/-- The `forEach` loop of `convertMidiToABC` from index `i` on. -/
def abcBodyAux (n : Nat) : Nat → List NoteL → String
  | _, [] => ""
  | i, note :: rest => abcNotePiece n i note ++ abcBodyAux n (i + 1) rest

/-- The whole note-token body appended by `convertMidiToABC` for a (sorted)
note list. -/
def abcBody (notes : List NoteL) : String :=
  abcBodyAux notes.length 0 notes

/-- The fixed fallback ABC document returned by the `catch` branch of
`convertMidiToABC`. -/
def abcFallback : String := "X:1\nT:Error\nM:4/4\nL:1/4\nK:C\nz4"

/-- Function `convertMidiToABC(midiData)`.  The `none` case is the `catch` branch:
on a `null` argument the body's first property access throws and the
function returns the fixed empty-measure document.  For a well-typed
non-null model the body cannot throw; `midiData.tracks &&
midiData.tracks.length > 0` selects the first track when one exists. -/
def convertMidiToABC : Option MidiData → String
  | none => abcFallback
  | some m =>
    abcHeader m.name ++
      match m.tracks with
      | [] => ""
      | t0 :: _ => abcBody (sortNotesByTime t0.notes)

/-- Function `convertMidiToVexFlow(midiData)`.  The `none` case is the `catch`
branch returning the empty array; otherwise the first track's notes are
sorted by time and mapped to descriptors. -/
def convertMidiToVexFlow : Option MidiData → List VexNote
  | none => []
  | some m =>
    match m.tracks with
    | [] => []
    | t0 :: _ => (sortNotesByTime t0.notes).map noteToVexFlow

/-- The summary object returned by `getMidiSummary`. -/
structure MidiSummary where
  name : String
  duration : String
  tracks : Nat
  totalNotes : Nat
  instruments : String
deriving Repr, DecidableEq

/-- JavaScript `Math.round`: round half toward positive infinity. -/
def jsRound (q : ℚ) : Int := ⌊q + 1/2⌋

/-- Decimal rendering of the JavaScript number `k / 100` for `k : Nat`
(shortest form: trailing zero decimals are not printed, matching
JavaScript number-to-string conversion for such values). -/
def formatHundredthsNat (k : Nat) : String :=
  if k % 100 = 0 then toString (k / 100)
  else if k % 10 = 0 then toString (k / 100) ++ "." ++ toString (k / 10 % 10)
  else toString (k / 100) ++ "." ++ toString (k / 10 % 10) ++ toString (k % 10)

/-- Decimal rendering of the JavaScript number `k / 100` for `k : Int`
(the value interpolated by the template string of `getMidiSummary`). -/
def formatHundredths (k : Int) : String :=
  if k < 0 then "-" ++ formatHundredthsNat (-k).toNat
  else formatHundredthsNat k.toNat

/-- The fallback summary returned by the `catch` branch of
`getMidiSummary`. -/
def summaryFallback : MidiSummary :=
  { name := "Unknown", duration := "0 seconds", tracks := 0,
    totalNotes := 0, instruments := "Unknown" }

/-- Function `getMidiSummary(midiData)`.  The `none` case is the `catch` branch (a
`null` argument throws at `midiData.tracks.reduce`).  Otherwise:
`totalNotes` is the `reduce` sum of note counts, `duration` interpolates
`Math.round(midiData.duration * 100) / 100` into a template string, and
`instruments` joins `track.instrument?.name || 'Piano'` with a comma and a
space. -/
def getMidiSummary : Option MidiData → MidiSummary
  | none => summaryFallback
  | some m =>
    { name := jsOr m.name "Transcribed Audio"
      duration := formatHundredths (jsRound (m.duration * 100)) ++ " seconds"
      tracks := m.tracks.length
      totalNotes := m.tracks.foldl (fun sum t => sum + t.notes.length) 0
      instruments :=
        String.intercalate ", " (m.tracks.map (fun t => jsOr t.instrument "Piano")) }

/-!
A second, heap-aware embedding of the two encoders, used to settle the
frame claim that the encoders never mutate the model's note arrays.  Here
JavaScript arrays of notes live in a store (the heap) and tracks hold
references into it; `[...firstTrack.notes]` allocates a fresh array and
`.sort(...)` mutates its receiver in place.
-/

/-- The heap of note arrays: index = array reference. -/
def NoteStore := List (List NoteL)

/-- A track whose `notes` field is a reference into the store. -/
structure TrackRef where
  name : Option String
  instrument : Option String
  notes : Nat

/-- Parsed MIDI data over store references. -/
structure MidiDataRef where
  name : Option String
  duration : ℚ
  tracks : List TrackRef

/-- Read an array out of the store. -/
def storeGet (s : NoteStore) (r : Nat) : List NoteL :=
  List.getD s r []

/-- The spread `[...a]`: allocate a fresh array holding the contents of
array `r`, returning the new store and the new reference. -/
def storeAlloc (s : NoteStore) (r : Nat) : NoteStore × Nat :=
  (List.concat s (storeGet s r), List.length s)

/-- JavaScript `arr.sort((a, b) => a.time - b.time)`: in-place stable sort of the
array behind reference `r`. -/
def storeSortInPlace (s : NoteStore) (r : Nat) : NoteStore :=
  List.set s r (sortNotesByTime (storeGet s r))

/-- Heap-aware `convertMidiToABC` on a non-null model: the returned store
is the heap after the call.  `const sortedNotes =
[...firstTrack.notes].sort(...)` copies the first track's array and sorts
the copy in place. -/
def convertMidiToABCSt (m : MidiDataRef) (s : NoteStore) : String × NoteStore :=
  match m.tracks with
  | [] => (abcHeader m.name, s)
  | t0 :: _ =>
    let a := storeAlloc s t0.notes
    let s2 := storeSortInPlace a.1 a.2
    (abcHeader m.name ++ abcBody (storeGet s2 a.2), s2)

/-- Heap-aware `convertMidiToVexFlow` on a non-null model. -/
def convertMidiToVexFlowSt (m : MidiDataRef) (s : NoteStore) :
    List VexNote × NoteStore :=
  match m.tracks with
  | [] => ([], s)
  | t0 :: _ =>
    let a := storeAlloc s t0.notes
    let s2 := storeSortInPlace a.1 a.2
    ((storeGet s2 a.2).map noteToVexFlow, s2)

/-! Helper lemmas shared by several proofs. -/

/-- Accumulator form of the `reduce` in `getMidiSummary`. -/
theorem foldl_noteCount (l : List TrackL) (a : Nat) :
    l.foldl (fun sum t => sum + t.notes.length) a
      = a + (l.map (fun t => t.notes.length)).sum := by
  induction l generalizing a with
  | nil => simp
  | cons t l ih => simp [ih, Nat.add_assoc]

/-!
### C1

Claim: a note with `durationSeconds` exactly `2.0` gets ABC suffix "2" and
VexFlow code "h" (half), not whole "4"/"w".  The code tests
`note.duration < 2` for the half bucket, so exactly `2` falls through to
the whole bucket in both encoders; the repository's own ABC duration test
(`convertNoteToABC({name:'C4', duration:2})` expected to be `'C4'`) agrees
with the code, while one VexFlow test expectation disagrees.  The claim is
corrected: exactly `2.0` classifies as whole.
-/

/-- C1 counterexample: the note "C4" with duration exactly 2 is encoded as
whole ("C4" / "w"), not as half ("C2" / "h") as the claim states. -/
theorem C1_counterexample :
    convertNoteToABC ⟨"C4", 60, 0, 2, 1⟩ = "C4"
      ∧ convertNoteToABC ⟨"C4", 60, 0, 2, 1⟩ ≠ "C2"
      ∧ (noteToVexFlow ⟨"C4", 60, 0, 2, 1⟩).duration = "w"
      ∧ (noteToVexFlow ⟨"C4", 60, 0, 2, 1⟩).duration ≠ "h" := by
  have hs : abcDurationSuffix 2 = "4" := by norm_num [abcDurationSuffix]
  have hv : vexDurationCode 2 = "w" := by norm_num [vexDurationCode]
  have habc : convertNoteToABC ⟨"C4", 60, 0, 2, 1⟩ = "C4" := by
    show abcPitchPart "C4" ++ abcDurationSuffix 2 = "C4"
    rw [hs, show abcPitchPart "C4" = "C" by decide]
    decide
  have hvex : (noteToVexFlow ⟨"C4", 60, 0, 2, 1⟩).duration = "w" := by
    show vexDurationCode 2 = "w"
    exact hv
  exact ⟨habc, by rw [habc]; decide, hvex, by rw [hvex]; decide⟩

/-- C1 amended: for every note whose `durationSeconds` is exactly 2.0, the
ABC encoder appends the whole-note suffix "4" and the VexFlow encoder
assigns the whole-note code "w" (exactly 2.0 classifies as whole, not
half). -/
theorem C1_amended (note : NoteL) (h : note.duration = 2) :
    convertNoteToABC note = abcPitchPart note.name ++ "4"
      ∧ (noteToVexFlow note).duration = "w" := by
  constructor
  · show abcPitchPart note.name ++ abcDurationSuffix note.duration = _
    rw [h]
    norm_num [abcDurationSuffix]
  · show vexDurationCode note.duration = "w"
    rw [h]
    norm_num [vexDurationCode]

/-- Witness for C1 amended at the concrete note "C4" with duration 2. -/
theorem C1_amended_witness :
    (⟨"C4", 60, 0, 2, 1⟩ : NoteL).duration = 2
      ∧ (convertNoteToABC ⟨"C4", 60, 0, 2, 1⟩ = abcPitchPart "C4" ++ "4"
          ∧ (noteToVexFlow ⟨"C4", 60, 0, 2, 1⟩).duration = "w") :=
  ⟨rfl, C1_amended ⟨"C4", 60, 0, 2, 1⟩ rfl⟩

/-!
### C2
-/

/-- C2: on the null model none of the three functions throws:
`convertMidiToABC(null)` returns the fixed fallback document, which
contains the error-title marker "T:Error" and the empty-measure token
"z4"; `convertMidiToVexFlow(null)` returns the empty sequence; and
`getMidiSummary(null)` returns exactly the all-default summary. -/
theorem C2_null_inputs :
    convertMidiToABC none = "X:1\nT:Error\nM:4/4\nL:1/4\nK:C\nz4"
      ∧ ("T:Error".toList <:+: (convertMidiToABC none).toList)
      ∧ ("z4".toList <:+: (convertMidiToABC none).toList)
      ∧ convertMidiToVexFlow none = []
      ∧ getMidiSummary none =
          { name := "Unknown", duration := "0 seconds", tracks := 0,
            totalNotes := 0, instruments := "Unknown" } :=
  ⟨rfl, by decide, by decide, rfl, rfl⟩

/-!
### C6
-/

/-- C6: for every model with an empty `tracks` sequence (and a present,
non-empty name, so that the title line shows the model name),
`convertMidiToABC` returns exactly the five header lines,
`convertMidiToVexFlow` returns the empty sequence, and `getMidiSummary`
reports 0 tracks and 0 total notes; none of them fails. -/
theorem C6_empty_tracks (m : MidiData) (s : String)
    (h : m.tracks = []) (hn : m.name = some s) (hs : s ≠ "") :
    convertMidiToABC (some m) = "X:1\nT:" ++ s ++ "\nM:4/4\nL:1/4\nK:C\n"
      ∧ convertMidiToVexFlow (some m) = []
      ∧ (getMidiSummary (some m)).tracks = 0
      ∧ (getMidiSummary (some m)).totalNotes = 0 := by
  refine ⟨?_, ?_, ?_, ?_⟩
  · have habc : convertMidiToABC (some m) = abcHeader m.name := by
      simp [convertMidiToABC, h]
    rw [habc, hn]
    simp only [abcHeader, jsOr, if_neg hs]
    simp only [String.append_assoc]
    rw [← String.append_assoc "X:1\n" "T:"]
    rfl
  · simp [convertMidiToVexFlow, h]
  · simp [getMidiSummary, h]
  · simp [getMidiSummary, h]

/-- Witness for C6 at the concrete empty model named "Empty Song". -/
theorem C6_empty_tracks_witness :
    (⟨some "Empty Song", 0, []⟩ : MidiData).tracks = []
      ∧ (⟨some "Empty Song", 0, []⟩ : MidiData).name = some "Empty Song"
      ∧ "Empty Song" ≠ ""
      ∧ (convertMidiToABC (some ⟨some "Empty Song", 0, []⟩)
            = "X:1\nT:" ++ "Empty Song" ++ "\nM:4/4\nL:1/4\nK:C\n"
          ∧ convertMidiToVexFlow (some ⟨some "Empty Song", 0, []⟩) = []
          ∧ (getMidiSummary (some ⟨some "Empty Song", 0, []⟩)).tracks = 0
          ∧ (getMidiSummary (some ⟨some "Empty Song", 0, []⟩)).totalNotes = 0) :=
  ⟨rfl, rfl, by decide,
    C6_empty_tracks ⟨some "Empty Song", 0, []⟩ "Empty Song" rfl rfl (by decide)⟩

/-!
### C7

Claim: `instruments` substitutes "Piano" exactly for tracks without an
instrument label.  The code computes `track.instrument?.name || 'Piano'`,
so a present but empty-string label is falsy and is also replaced by
"Piano"; the claim is corrected accordingly.  The other three components
hold as claimed.
-/

/-- C7 counterexample: on a model with one track whose instrument label is
present but empty, the code reports "Piano" while the claimed formula
(labels joined, "Piano" only for absent labels) yields "". -/
theorem C7_counterexample :
    (getMidiSummary (some ⟨some "T", 1, [⟨none, some "", []⟩]⟩)).instruments
        = "Piano"
      ∧ (getMidiSummary (some ⟨some "T", 1, [⟨none, some "", []⟩]⟩)).instruments
          ≠ String.intercalate ", "
              (([⟨none, some "", []⟩] : List TrackL).map
                (fun t => t.instrument.getD "Piano")) := by
  refine ⟨by decide, by decide⟩

/-- C7 amended: for every non-null model, `getMidiSummary` reports the
number of tracks, the sum of the per-track note counts, the per-track
instrument labels joined by ", " with "Piano" substituted for any track
whose label is absent or empty (the JavaScript `|| 'Piano'` default), and
the duration rounded half-up to 2 decimal places rendered as
"(value) seconds". -/
theorem C7_amended (m : MidiData) :
    (getMidiSummary (some m)).tracks = m.tracks.length
      ∧ (getMidiSummary (some m)).totalNotes
          = (m.tracks.map (fun t => t.notes.length)).sum
      ∧ (getMidiSummary (some m)).instruments
          = String.intercalate ", " (m.tracks.map (fun t => jsOr t.instrument "Piano"))
      ∧ (getMidiSummary (some m)).duration
          = formatHundredths (jsRound (m.duration * 100)) ++ " seconds" := by
  refine ⟨rfl, ?_, rfl, rfl⟩
  show m.tracks.foldl (fun sum t => sum + t.notes.length) 0 = _
  rw [foldl_noteCount]
  simp

/-!
### C9
-/

/-- C9: a note with zero or negative duration makes neither encoder fail:
it lands in the "<0.25" bucket, so the ABC token ends in "/4" and the
VexFlow descriptor carries duration code "16". -/
theorem C9_nonpositive_duration (note : NoteL) (h : note.duration ≤ 0) :
    convertNoteToABC note = abcPitchPart note.name ++ "/4"
      ∧ (noteToVexFlow note).duration = "16" := by
  have h4 : note.duration < 1/4 := lt_of_le_of_lt h (by norm_num)
  constructor
  · show abcPitchPart note.name ++ abcDurationSuffix note.duration = _
    rw [abcDurationSuffix, if_pos h4]
  · show vexDurationCode note.duration = "16"
    rw [vexDurationCode, if_pos h4]

/-- Witness for C9 at the concrete note "C4" with duration 0. -/
theorem C9_nonpositive_duration_witness :
    (⟨"C4", 60, 0, 0, 1⟩ : NoteL).duration ≤ 0
      ∧ (convertNoteToABC ⟨"C4", 60, 0, 0, 1⟩ = abcPitchPart "C4" ++ "/4"
          ∧ (noteToVexFlow ⟨"C4", 60, 0, 0, 1⟩).duration = "16") :=
  ⟨le_refl 0, C9_nonpositive_duration ⟨"C4", 60, 0, 0, 1⟩ (le_refl 0)⟩

/-!
### C10

Claim: every out-of-map pitch class is silently replaced by "C" and the
function never fails.  JavaScript property access `noteMap[noteName]`
consults the prototype chain: for a pitch class that is a property name of
`Object.prototype` (e.g. "toString", "constructor", "valueOf",
"__proto__") the lookup yields a truthy non-string inherited value, so
`|| 'C'` does not fire; for octave >= 5 the subsequent
`abcNote.toLowerCase()` then throws a TypeError, and otherwise `+=`
coerces the value to an engine-dependent string.  The claim is corrected:
the "C" substitution (and totality) holds exactly for pitch classes that
are neither own keys of the literal nor inherited `Object.prototype`
property names.
-/

/-- Property names a plain object literal inherits from
`Object.prototype`: looking any of them up on `noteMap` yields a truthy
non-string value (a built-in function, or the prototype object itself for
`__proto__`). -/
def objectProtoKeys : List String :=
  ["constructor", "hasOwnProperty", "isPrototypeOf", "propertyIsEnumerable",
   "toLocaleString", "toString", "valueOf", "__proto__",
   "__defineGetter__", "__defineSetter__", "__lookupGetter__", "__lookupSetter__"]

/-- Outcome of running `convertNoteToABC` under full JavaScript
property-lookup semantics. -/
inductive JsOutcome where
  /-- Returns exactly this string. -/
  | ok : String → JsOutcome
  /-- Returns a string obtained by coercing a truthy non-string inherited
  value with `+=`; its exact text is engine-dependent, and it is never the
  "C" substitution. -/
  | engineDep : JsOutcome
  /-- Throws a TypeError (`.toLowerCase()` called on a non-string). -/
  | typeError : JsOutcome
deriving Repr, DecidableEq

/-- Function `convertNoteToABC(note)` under full JavaScript lookup
semantics.  An own key of `noteMap`, or a name found neither on the
literal nor on `Object.prototype` (the lookup yields `undefined`, so
`|| 'C'` substitutes), behaves exactly as `convertNoteToABC`.  A pitch
class inherited from `Object.prototype` is a truthy non-string: with
octave >= 5 the octave block throws in `toLowerCase` (before any duration
code runs), otherwise the `+=` appends coerce the value into an
engine-dependent string. -/
def convertNoteToABCJs (note : NoteL) : JsOutcome :=
  let noteName := String.mk (stripFirstDigitRun note.name.toList)
  let octave := parseOctaveJS note.name
  match noteMapABC noteName with
  | some v =>
    JsOutcome.ok (applyOctaveABC v octave ++ abcDurationSuffix note.duration)
  | none =>
    if noteName ∈ objectProtoKeys then
      if 5 ≤ octave then JsOutcome.typeError else JsOutcome.engineDep
    else
      JsOutcome.ok (applyOctaveABC "C" octave ++ abcDurationSuffix note.duration)

/-- C10 counterexample: the pitch class "toString" is not one of the
twelve sharp-based names, yet the code does not substitute "C": the
lookup finds the inherited `Object.prototype.toString` function, and for
the note "toString5" (octave 5) the octave block's `toLowerCase()` call
throws a TypeError — `convertNoteToABC` fails, contradicting the claim's
"does not fail and silently substitutes C". -/
theorem C10_counterexample :
    noteMapABC (String.mk (stripFirstDigitRun ("toString5" : String).toList)) = none
      ∧ convertNoteToABCJs ⟨"toString5", 0, 0, 1/2, 1⟩ = JsOutcome.typeError :=
  ⟨by decide, by decide⟩

/-- C10 amended: for every note whose pitch class (name with the first
digit run removed) is neither one of the twelve sharp-based names nor a
property name inherited from `Object.prototype`, `convertNoteToABC` does
not fail and reports no validation error: it silently substitutes the
pitch class "C" and applies the normal octave and duration rules to it —
and on this domain the full-lookup semantics returns exactly the plain
`convertNoteToABC` result. -/
theorem C10_amended (note : NoteL)
    (h : noteMapABC (String.mk (stripFirstDigitRun note.name.toList)) = none)
    (hp : String.mk (stripFirstDigitRun note.name.toList) ∉ objectProtoKeys) :
    convertNoteToABCJs note = JsOutcome.ok (convertNoteToABC note)
      ∧ convertNoteToABC note
          = applyOctaveABC "C" (parseOctaveJS note.name)
              ++ abcDurationSuffix note.duration := by
  have h2 : noteMapABC { data := stripFirstDigitRun note.name.data } = none := h
  have hp2 : ({ data := stripFirstDigitRun note.name.data } : String) ∉ objectProtoKeys := hp
  have habc : convertNoteToABC note
      = applyOctaveABC "C" (parseOctaveJS note.name) ++ abcDurationSuffix note.duration := by
    show abcPitchPart note.name ++ abcDurationSuffix note.duration = _
    simp [abcPitchPart, h2]
  refine ⟨?_, habc⟩
  simp [convertNoteToABCJs, h2, hp2, habc]

/-- Witness for C10 amended at the concrete note "H5": the pitch class
"H" is neither a map key nor an inherited property name, so the note
renders like "C5" ("c") with the quarter-note suffix, under both the
plain and the full-lookup semantics. -/
theorem C10_amended_witness :
    noteMapABC (String.mk (stripFirstDigitRun ("H5" : String).toList)) = none
      ∧ String.mk (stripFirstDigitRun ("H5" : String).toList) ∉ objectProtoKeys
      ∧ (convertNoteToABCJs ⟨"H5", 0, 0, 1/2, 1⟩
            = JsOutcome.ok (convertNoteToABC ⟨"H5", 0, 0, 1/2, 1⟩)
          ∧ convertNoteToABC ⟨"H5", 0, 0, 1/2, 1⟩
              = applyOctaveABC "C" (parseOctaveJS "H5") ++ abcDurationSuffix (1/2)) :=
  ⟨by decide, by decide, C10_amended ⟨"H5", 0, 0, 1/2, 1⟩ (by decide) (by decide)⟩

/-!
### C5
-/

/-- Membership in a stable insertion. -/
theorem mem_insertByTime {z x : NoteL} : ∀ {l : List NoteL},
    z ∈ insertByTime x l → z = x ∨ z ∈ l := by
  intro l
  induction l with
  | nil => intro h; simp [insertByTime] at h; exact Or.inl h
  | cons y ys ih =>
    intro h
    rw [insertByTime] at h
    by_cases hc : x.time ≤ y.time
    · rw [if_pos hc] at h
      exact List.mem_cons.mp h
    · rw [if_neg hc] at h
      rcases List.mem_cons.mp h with h | h
      · exact Or.inr (List.mem_cons.mpr (Or.inl h))
      · rcases ih h with h2 | h2
        · exact Or.inl h2
        · exact Or.inr (List.mem_cons.mpr (Or.inr h2))

/-- Stable insertion preserves sortedness by `time`. -/
theorem pairwise_insertByTime {x : NoteL} : ∀ {l : List NoteL},
    List.Pairwise (fun a b : NoteL => a.time ≤ b.time) l →
    List.Pairwise (fun a b : NoteL => a.time ≤ b.time) (insertByTime x l) := by
  intro l
  induction l with
  | nil => intro _; simp [insertByTime]
  | cons y ys ih =>
    intro h
    rw [List.pairwise_cons] at h
    rw [insertByTime]
    by_cases hc : x.time ≤ y.time
    · rw [if_pos hc]
      refine List.Pairwise.cons ?_ (List.Pairwise.cons h.1 h.2)
      intro z hz
      rcases List.mem_cons.mp hz with hz | hz
      · rw [hz]; exact hc
      · exact le_trans hc (h.1 z hz)
    · rw [if_neg hc]
      refine List.Pairwise.cons ?_ (ih h.2)
      intro z hz
      rcases mem_insertByTime hz with hz | hz
      · rw [hz]; exact le_of_lt (lt_of_not_le hc)
      · exact h.1 z hz

/-- The sort used by both encoders returns a list sorted by `time`. -/
theorem pairwise_sortNotesByTime : ∀ (l : List NoteL),
    List.Pairwise (fun a b : NoteL => a.time ≤ b.time) (sortNotesByTime l) := by
  intro l
  induction l with
  | nil => simp [sortNotesByTime]
  | cons x xs ih => rw [sortNotesByTime]; exact pairwise_insertByTime ih

/-- Inserting never reorders the notes carrying any fixed time `q`: the
inserted note travels only past strictly earlier notes. -/
theorem filter_insertByTime (q : ℚ) (x : NoteL) : ∀ (l : List NoteL),
    (insertByTime x l).filter (fun nt => decide (nt.time = q))
      = (x :: l).filter (fun nt => decide (nt.time = q)) := by
  intro l
  induction l with
  | nil => rfl
  | cons y ys ih =>
    rw [insertByTime]
    by_cases hc : x.time ≤ y.time
    · rw [if_pos hc]
    · rw [if_neg hc]
      have hlt : y.time < x.time := lt_of_not_le hc
      by_cases hx : x.time = q <;> by_cases hy : y.time = q
      · exact absurd (hx ▸ hy) (ne_of_lt hlt)
      · simp only [List.filter, hx, hy, decide_eq_true_eq, decide_eq_false_iff_not,
          if_pos, if_neg] at ih ⊢
        simp [hy, ih, hx]
      · simp [List.filter_cons, hx, hy, ih]
      · simp [List.filter_cons, hx, hy, ih]

/-- The sort is stable: for every time value `q`, the subsequence of notes
with that time is exactly the input subsequence with that time. -/
theorem filter_sortNotesByTime (q : ℚ) : ∀ (l : List NoteL),
    (sortNotesByTime l).filter (fun nt => decide (nt.time = q))
      = l.filter (fun nt => decide (nt.time = q)) := by
  intro l
  induction l with
  | nil => rfl
  | cons x xs ih =>
    rw [sortNotesByTime, filter_insertByTime]
    simp only [List.filter_cons, ih]

/-- C5: both encoders emit the first track's notes sorted by `timeSeconds`
ascending, and the sort is stable: for every time value, the notes with
that time appear in their input order.  The VexFlow output is exactly the
sorted notes mapped to descriptors, and the ABC output is the header
followed by the body built from the sorted notes. -/
theorem C5_stable_sort (m : MidiData) (t0 : TrackL) (rest : List TrackL)
    (h : m.tracks = t0 :: rest) :
    List.Pairwise (fun a b : NoteL => a.time ≤ b.time) (sortNotesByTime t0.notes)
      ∧ (∀ q : ℚ, (sortNotesByTime t0.notes).filter (fun nt => decide (nt.time = q))
            = t0.notes.filter (fun nt => decide (nt.time = q)))
      ∧ convertMidiToVexFlow (some m) = (sortNotesByTime t0.notes).map noteToVexFlow
      ∧ convertMidiToABC (some m) = abcHeader m.name ++ abcBody (sortNotesByTime t0.notes) := by
  refine ⟨pairwise_sortNotesByTime t0.notes,
    fun q => filter_sortNotesByTime q t0.notes, ?_, ?_⟩
  · simp [convertMidiToVexFlow, h]
  · simp [convertMidiToABC, h]

/-- Witness for C5 on a concrete two-track-note model with two equal-time
notes ("D4" before "C4", both at time 0), instantiating the stability
statement at time 0. -/
theorem C5_stable_sort_witness :
    (⟨some "S", 1, [⟨none, none, [⟨"D4", 62, 0, 1, 1⟩, ⟨"C4", 60, 0, 1, 1⟩]⟩]⟩ : MidiData).tracks
        = ⟨none, none, [⟨"D4", 62, 0, 1, 1⟩, ⟨"C4", 60, 0, 1, 1⟩]⟩ :: []
      ∧ List.Pairwise (fun a b : NoteL => a.time ≤ b.time)
          (sortNotesByTime [⟨"D4", 62, 0, 1, 1⟩, ⟨"C4", 60, 0, 1, 1⟩])
      ∧ (sortNotesByTime [⟨"D4", 62, 0, 1, 1⟩, ⟨"C4", 60, 0, 1, 1⟩]).filter
            (fun nt => decide (nt.time = 0))
          = [⟨"D4", 62, 0, 1, 1⟩, ⟨"C4", 60, 0, 1, 1⟩].filter (fun nt => decide (nt.time = 0))
      ∧ convertMidiToVexFlow (some ⟨some "S", 1, [⟨none, none, [⟨"D4", 62, 0, 1, 1⟩, ⟨"C4", 60, 0, 1, 1⟩]⟩]⟩)
          = (sortNotesByTime [⟨"D4", 62, 0, 1, 1⟩, ⟨"C4", 60, 0, 1, 1⟩]).map noteToVexFlow :=
  ⟨rfl,
    (C5_stable_sort ⟨some "S", 1, [⟨none, none, [⟨"D4", 62, 0, 1, 1⟩, ⟨"C4", 60, 0, 1, 1⟩]⟩]⟩
      ⟨none, none, [⟨"D4", 62, 0, 1, 1⟩, ⟨"C4", 60, 0, 1, 1⟩]⟩ [] rfl).1,
    (C5_stable_sort ⟨some "S", 1, [⟨none, none, [⟨"D4", 62, 0, 1, 1⟩, ⟨"C4", 60, 0, 1, 1⟩]⟩]⟩
      ⟨none, none, [⟨"D4", 62, 0, 1, 1⟩, ⟨"C4", 60, 0, 1, 1⟩]⟩ [] rfl).2.1 0,
    (C5_stable_sort ⟨some "S", 1, [⟨none, none, [⟨"D4", 62, 0, 1, 1⟩, ⟨"C4", 60, 0, 1, 1⟩]⟩]⟩
      ⟨none, none, [⟨"D4", 62, 0, 1, 1⟩, ⟨"C4", 60, 0, 1, 1⟩]⟩ [] rfl).2.2.1⟩

/-!
### C8
-/

/-- Writing a freshly allocated slot never changes a pre-existing slot. -/
theorem storeGet_concat_set (v w : List NoteL) : ∀ (s : NoteStore) (r : Nat),
    r < s.length →
    storeGet (List.set (List.concat s v) s.length w) r = storeGet s r := by
  intro s
  induction s with
  | nil => intro r hr; exact absurd hr (by simp)
  | cons a s ih =>
    intro r hr
    cases r with
    | zero => rfl
    | succ r =>
      have := ih r (by simpa using hr)
      simpa [storeGet, List.concat, List.set] using this

/-- C8: neither encoder mutates the model: every note array that existed
in the store before the call holds exactly the same notes, in the same
order, after the call — the sort operates on a freshly allocated copy
(`[...firstTrack.notes]`), never on a track's own array. -/
theorem C8_no_mutation (m : MidiDataRef) (s : NoteStore) (r : Nat)
    (h : r < s.length) :
    storeGet (convertMidiToABCSt m s).2 r = storeGet s r
      ∧ storeGet (convertMidiToVexFlowSt m s).2 r = storeGet s r := by
  constructor
  · cases htr : m.tracks with
    | nil => rw [convertMidiToABCSt, htr]
    | cons t0 ts =>
      rw [convertMidiToABCSt, htr]
      exact storeGet_concat_set _ _ s r h
  · cases htr : m.tracks with
    | nil => rw [convertMidiToVexFlowSt, htr]
    | cons t0 ts =>
      rw [convertMidiToVexFlowSt, htr]
      exact storeGet_concat_set _ _ s r h

/-- Witness for C8: a one-array store whose notes are out of time order
(so the internal sort genuinely reorders its copy), read back unchanged
after both encoder calls. -/
theorem C8_no_mutation_witness :
    (0 : Nat) < ([[⟨"D4", 62, 1, 1, 1⟩, ⟨"C4", 60, 0, 1, 1⟩]] : NoteStore).length
      ∧ (storeGet (convertMidiToABCSt ⟨some "S", 1, [⟨none, none, 0⟩]⟩
            [[⟨"D4", 62, 1, 1, 1⟩, ⟨"C4", 60, 0, 1, 1⟩]]).2 0
          = storeGet [[⟨"D4", 62, 1, 1, 1⟩, ⟨"C4", 60, 0, 1, 1⟩]] 0
        ∧ storeGet (convertMidiToVexFlowSt ⟨some "S", 1, [⟨none, none, 0⟩]⟩
            [[⟨"D4", 62, 1, 1, 1⟩, ⟨"C4", 60, 0, 1, 1⟩]]).2 0
          = storeGet [[⟨"D4", 62, 1, 1, 1⟩, ⟨"C4", 60, 0, 1, 1⟩]] 0) :=
  ⟨by decide,
    C8_no_mutation ⟨some "S", 1, [⟨none, none, 0⟩]⟩
      [[⟨"D4", 62, 1, 1, 1⟩, ⟨"C4", 60, 0, 1, 1⟩]] 0 (by decide)⟩

/-!
### C4

Claim: octave digit `n ≥ 5` lower-cases the letter and appends `n - 5`
apostrophes, `n < 4` appends `4 - n` commas, `n = 4` is unmarked.  The
octave is computed as `parseInt(...) || 4`, and `0` is falsy in
JavaScript, so the octave digit `0` is treated as absent and defaults to
the unmarked register `4`: "C0" renders as "C", not "C,,,,".  The claim
is corrected by exempting `n = 0` from the comma rule.
-/

/-- The twelve sharp-based pitch-class names, i.e. the own keys of the
`noteMap` object literal, in its key order. -/
def sharpNames : List String :=
  ["C", "C" ++ "#", "D", "D" ++ "#", "E", "F", "F" ++ "#",
   "G", "G" ++ "#", "A", "A" ++ "#", "B"]

/-- The octave rendering the amended claim describes, applied to the
ABC-mapped pitch `base`: `n ≥ 5` lower-cases and appends `n - 5`
apostrophes; `n ∈ {0, 4}` leaves the pitch unmarked (`0` because the
octave parse treats it as absent); otherwise `4 - n` commas are
appended. -/
def specOctaveRender (base : String) (n : Nat) : String :=
  if 5 ≤ n then jsToLowerCase base ++ String.mk (List.replicate (n - 5) apostrophe)
  else if n = 0 ∨ n = 4 then base
  else base ++ String.mk (List.replicate (4 - n) ',')

/-- For every valid pitch class and every octave digit, the pitch part of
the ABC token matches the amended octave-rendering rule. -/
theorem abcPitchPart_octave_digit :
    ∀ p ∈ sharpNames,
    ∀ n < 10,
      abcPitchPart (p ++ toString n) = specOctaveRender ((noteMapABC p).getD "C") n := by
  decide

/-- C4 counterexample: the note "C0" is rendered "C" (the octave parse
`parseInt(...) || 4` treats the falsy digit 0 as absent), not "C,,,,"
with the `4 - n = 4` commas the claim requires for every `n < 4`. -/
theorem C4_counterexample :
    convertNoteToABC ⟨"C0", 12, 0, 1/2, 1⟩ = "C"
      ∧ convertNoteToABC ⟨"C0", 12, 0, 1/2, 1⟩ ≠ "C,,,," := by
  have hd : abcDurationSuffix (1/2) = "" := by norm_num [abcDurationSuffix]
  have h : convertNoteToABC ⟨"C0", 12, 0, 1/2, 1⟩ = "C" := by
    show abcPitchPart "C0" ++ abcDurationSuffix (1/2) = "C"
    rw [hd, show abcPitchPart "C0" = "C" by decide]
    decide
  exact ⟨h, by rw [h]; decide⟩

/-- C4 amended: for every note whose `pitchName` is a valid pitch class
followed by a single octave digit `n`, and any duration: `n ≥ 5`
lower-cases the mapped pitch and appends `n - 5` apostrophes; `1 ≤ n ≤ 3`
appends `4 - n` commas; `n = 4` leaves it unmarked; and (the correction)
`n = 0` is treated as an absent octave and also leaves it unmarked.  The
duration suffix is appended unchanged after the octave marks. -/
theorem C4_amended (p : String) (n : Nat) (mdi : Int) (t d v : ℚ)
    (hp : p ∈ sharpNames)
    (hn : n < 10) :
    convertNoteToABC ⟨p ++ toString n, mdi, t, d, v⟩
      = specOctaveRender ((noteMapABC p).getD "C") n ++ abcDurationSuffix d := by
  show abcPitchPart (p ++ toString n) ++ abcDurationSuffix d = _
  rw [abcPitchPart_octave_digit p hp n hn]

/-- Witness for C4 amended at pitch class "C", octave digit 3, duration
1/2 (the "C3" encodes to "C," test vector). -/
theorem C4_amended_witness :
    ("C" ∈ sharpNames)
      ∧ (3 : Nat) < 10
      ∧ convertNoteToABC ⟨"C" ++ toString (3 : Nat), 48, 0, 1/2, 1⟩
          = specOctaveRender ((noteMapABC "C").getD "C") 3 ++ abcDurationSuffix (1/2) :=
  ⟨by decide, by decide, C4_amended "C" 3 48 0 (1/2) 1 (by decide) (by decide)⟩

/-!
### C3

Claim: tokens are separated by single spaces, a line break follows every
8th token, and no line break follows the final token, also when the token
count is a multiple of 8.  The loop appends the break whenever
`(index + 1) % 8 === 0`, including for the final token, so a track whose
note count is a multiple of 8 produces a body that ends in a line break;
the claim is corrected on that point.  The amended layout is stated as:
the body is the 8-token chunks, each chunk joined by single spaces, the
chunks joined by "(space)(newline)", with a trailing newline exactly when
the token count is a nonzero multiple of 8.
-/

/-- Tokens of one output line joined by single spaces. -/
def joinSpace : List String → String
  | [] => ""
  | [t] => t
  | t :: ts => t ++ " " ++ joinSpace ts

/-- Completed lines joined by a space followed by a line break (the space
is the ordinary token separator after the line's 8th token; the break
follows it). -/
def joinNl : List String → String
  | [] => ""
  | [t] => t
  | t :: ts => t ++ " \n" ++ joinNl ts

/-- Fuel-driven grouping into chunks of 8 (fuel bounds the recursion depth
so the definition reduces by evaluation). -/
def chunksOf8Aux : Nat → List String → List (List String)
  | 0, _ => []
  | _, [] => []
  | fuel + 1, t :: ts => (t :: ts).take 8 :: chunksOf8Aux fuel ((t :: ts).drop 8)

/-- Grouping of the token list into successive chunks of 8. -/
def chunksOf8 (l : List String) : List (List String) :=
  chunksOf8Aux l.length l

/-- The note-token layout described by the amended claim: chunks of 8
joined internally by single spaces, a space-plus-break between chunks, and
a trailing break exactly when the token count is a nonzero multiple of
8. -/
def specLayout (toks : List String) : String :=
  joinNl ((chunksOf8 toks).map joinSpace)
    ++ (if toks.length % 8 = 0 ∧ toks ≠ [] then "\n" else "")

/-- The text the loop appends for the token at index `i` out of `n`. -/
def tokPiece (n i : Nat) (t : String) : String :=
  t ++ (if i < n - 1 then " " else "") ++ (if (i + 1) % 8 = 0 then "\n" else "")

/-- The loop of `convertMidiToABC` on the bare token strings. -/
def tokAux (n : Nat) : Nat → List String → String
  | _, [] => ""
  | i, t :: ts => tokPiece n i t ++ tokAux n (i + 1) ts

/-- The note loop equals the token loop on the mapped tokens. -/
theorem abcBodyAux_eq_tokAux (n : Nat) : ∀ (notes : List NoteL) (i : Nat),
    abcBodyAux n i notes = tokAux n i (notes.map convertNoteToABC) := by
  intro notes
  induction notes with
  | nil => intro i; rfl
  | cons note rest ih =>
    intro i
    show abcNotePiece n i note ++ abcBodyAux n (i + 1) rest = _
    rw [ih (i + 1)]
    rfl

/-- The token loop distributes over list append. -/
theorem tokAux_append (n : Nat) : ∀ (a b : List String) (i : Nat),
    tokAux n i (a ++ b) = tokAux n i a ++ tokAux n (i + a.length) b := by
  intro a
  induction a with
  | nil =>
    intro b i
    show tokAux n i b = "" ++ tokAux n (i + 0) b
    rw [String.empty_append, Nat.add_zero]
  | cons t ts ih =>
    intro b i
    show tokPiece n i t ++ tokAux n (i + 1) (ts ++ b) = _
    rw [ih b (i + 1)]
    show _ = (tokPiece n i t ++ tokAux n (i + 1) ts) ++ tokAux n (i + (ts.length + 1)) b
    rw [String.append_assoc]
    have : i + 1 + ts.length = i + (ts.length + 1) := by omega
    rw [this]

/-- A chunk whose last token sits on an 8-boundary: every token but the
last is followed by a space, the last is followed by the break (and by a
space first when more tokens follow). -/
theorem tokAux_chunk_end : ∀ (ts : List String) (n i : Nat),
    ts ≠ [] → ts.length ≤ 8 → (i + ts.length) % 8 = 0 → i + ts.length ≤ n →
    tokAux n i ts
      = joinSpace ts ++ (if i + ts.length < n then " " else "") ++ "\n" := by
  intro ts
  induction ts with
  | nil => intro n i h; exact absurd rfl h
  | cons t ts ih =>
    intro n i _ hlen hmod hle
    cases ts with
    | nil =>
      show tokPiece n i t ++ "" = joinSpace [t] ++ _ ++ "\n"
      simp only [List.length_cons, List.length_nil, Nat.zero_add] at hmod hle ⊢
      rw [tokPiece, if_pos hmod]
      simp only [show (i < n - 1) ↔ (i + 1 < n) from by omega]
      show (t ++ _ ++ "\n") ++ "" = t ++ _ ++ "\n"
      rw [String.append_empty]
    | cons u us =>
      simp only [List.length_cons] at hlen hmod hle ⊢
      show tokPiece n i t ++ tokAux n (i + 1) (u :: us) = _
      rw [ih n (i + 1) (List.cons_ne_nil u us)
        (by simp only [List.length_cons]; omega)
        (by simp only [List.length_cons]; omega)
        (by simp only [List.length_cons]; omega)]
      simp only [List.length_cons]
      simp only [show i + 1 + (us.length + 1) = i + (us.length + 1 + 1) from by omega]
      rw [tokPiece]
      rw [if_pos (show i < n - 1 by omega)]
      rw [if_neg (show ¬((i + 1) % 8 = 0) by omega)]
      rw [String.append_empty]
      show _ = (t ++ " " ++ joinSpace (u :: us)) ++ _ ++ "\n"
      simp only [String.append_assoc]

/-- A final chunk that stops strictly before the next 8-boundary: tokens
joined by single spaces, no trailing space or break. -/
theorem tokAux_within : ∀ (ts : List String) (n i : Nat),
    0 < ts.length → i % 8 + ts.length ≤ 7 → n = i + ts.length →
    tokAux n i ts = joinSpace ts := by
  intro ts
  induction ts with
  | nil => intro n i h; simp at h
  | cons t ts ih =>
    intro n i _ hbound hn
    cases ts with
    | nil =>
      show tokPiece n i t ++ "" = joinSpace [t]
      simp only [List.length_cons, List.length_nil, Nat.zero_add] at hbound hn
      rw [tokPiece]
      rw [if_neg (show ¬(i < n - 1) by omega)]
      rw [if_neg (show ¬((i + 1) % 8 = 0) by omega)]
      show (t ++ "" ++ "") ++ "" = t
      rw [String.append_empty, String.append_empty, String.append_empty]
    | cons u us =>
      show tokPiece n i t ++ tokAux n (i + 1) (u :: us) = _
      simp only [List.length_cons] at hbound hn
      rw [ih n (i + 1) (by simp) (by simp; omega) (by simp; omega)]
      rw [tokPiece]
      rw [if_pos (show i < n - 1 by omega)]
      rw [if_neg (show ¬((i + 1) % 8 = 0) by omega)]
      rw [String.append_empty]
      show _ = t ++ " " ++ joinSpace (u :: us)
      simp only [String.append_assoc]

/-- The chunk grouping does not depend on the fuel, provided it
suffices. -/
theorem chunksOf8Aux_congr : ∀ (f1 f2 : Nat) (l : List String),
    l.length ≤ f1 → l.length ≤ f2 → chunksOf8Aux f1 l = chunksOf8Aux f2 l := by
  intro f1
  induction f1 with
  | zero =>
    intro f2 l h1 _
    have : l = [] := List.length_eq_zero.mp (by omega)
    subst this
    cases f2 <;> rfl
  | succ f1 ih =>
    intro f2 l h1 h2
    cases l with
    | nil => cases f2 <;> rfl
    | cons t ts =>
      cases f2 with
      | zero => simp at h2
      | succ f2 =>
        show (t :: ts).take 8 :: chunksOf8Aux f1 ((t :: ts).drop 8)
            = (t :: ts).take 8 :: chunksOf8Aux f2 ((t :: ts).drop 8)
        rw [ih f2 ((t :: ts).drop 8)
          (by rw [List.length_drop]; simp at h1 ⊢; omega)
          (by rw [List.length_drop]; simp at h2 ⊢; omega)]

/-- Any fuel flattens the empty list to no chunks. -/
theorem chunksOf8Aux_nil : ∀ f, chunksOf8Aux f ([] : List String) = [] := by
  intro f; cases f <;> rfl

/-- A nonempty list of at most 8 tokens is a single chunk. -/
theorem chunksOf8_small (l : List String) (hne : l ≠ []) (h8 : l.length ≤ 8) :
    chunksOf8 l = [l] := by
  cases l with
  | nil => exact absurd rfl hne
  | cons t ts =>
    show chunksOf8Aux (ts.length + 1) (t :: ts) = [t :: ts]
    rw [chunksOf8Aux]
    rw [List.take_of_length_le h8, List.drop_eq_nil_of_le h8, chunksOf8Aux_nil]

/-- More than 8 tokens: the first chunk is the first 8, the rest is the
grouping of the remainder. -/
theorem chunksOf8_cons_of_big (l : List String) (h : 8 < l.length) :
    chunksOf8 l = l.take 8 :: chunksOf8 (l.drop 8) := by
  cases l with
  | nil => simp at h
  | cons t ts =>
    show chunksOf8Aux (ts.length + 1) (t :: ts) = _
    rw [chunksOf8Aux]
    rw [chunksOf8Aux_congr ts.length ((t :: ts).drop 8).length ((t :: ts).drop 8)
      (by rw [List.length_drop]; simp only [List.length_cons]; omega) (le_refl _)]
    rfl

/-- The chunk grouping of a nonempty list is nonempty. -/
theorem chunksOf8_ne_nil (l : List String) (hne : l ≠ []) :
    chunksOf8 l ≠ [] := by
  cases l with
  | nil => exact absurd rfl hne
  | cons t ts =>
    show chunksOf8Aux (ts.length + 1) (t :: ts) ≠ []
    rw [chunksOf8Aux]
    exact List.cons_ne_nil _ _

/-- The token loop, started on an 8-boundary with the total count equal to
the offset plus the remaining tokens, produces exactly the chunked layout
of the amended claim. -/
theorem tokAux_specLayout : ∀ (len : Nat) (toks : List String) (i : Nat),
    toks.length = len → i % 8 = 0 →
    tokAux (i + toks.length) i toks = specLayout toks := by
  intro len
  induction len using Nat.strong_induction_on with
  | _ len ih =>
    intro toks i hlen hi
    by_cases hne : toks = []
    · subst hne
      show "" = specLayout []
      rw [specLayout]
      rw [if_neg (by simp)]
      rfl
    · by_cases h8 : toks.length ≤ 8
      · by_cases hfull : toks.length = 8
        · rw [tokAux_chunk_end toks (i + toks.length) i hne h8 (by omega) (le_refl _)]
          rw [if_neg (lt_irrefl _)]
          rw [specLayout, chunksOf8_small toks hne h8]
          rw [if_pos ⟨by omega, hne⟩]
          show joinSpace toks ++ "" ++ "\n" = joinSpace toks ++ "\n"
          rw [String.append_empty]
        · have hlt : toks.length < 8 := by omega
          have hpos : 0 < toks.length := List.length_pos.mpr hne
          rw [tokAux_within toks (i + toks.length) i hpos (by omega) rfl]
          rw [specLayout, chunksOf8_small toks hne h8]
          rw [if_neg (by rintro ⟨h1, _⟩; omega)]
          show joinSpace toks = joinNl [joinSpace toks] ++ ""
          rw [String.append_empty]
          rfl
      · have h9 : 8 < toks.length := by omega
        have hdlen : (toks.drop 8).length = toks.length - 8 := List.length_drop 8 toks
        have hdne : toks.drop 8 ≠ [] := by
          intro hnil
          rw [hnil] at hdlen
          simp at hdlen
          omega
        have htake : (toks.take 8).length = 8 := by
          rw [List.length_take]
          omega
        conv_lhs => rw [show toks = toks.take 8 ++ toks.drop 8 from
          (List.take_append_drop 8 toks).symm]
        rw [tokAux_append]
        rw [List.take_append_drop 8 toks]
        rw [htake]
        rw [tokAux_chunk_end (toks.take 8) (i + toks.length) i
          (by intro hnil; rw [hnil] at htake; simp at htake)
          (le_of_eq htake) (by rw [htake]; omega) (by rw [htake]; omega)]
        rw [htake, if_pos (show i + 8 < i + toks.length by omega)]
        have hrec : tokAux (i + toks.length) (i + 8) (toks.drop 8)
            = specLayout (toks.drop 8) := by
          have : i + toks.length = (i + 8) + (toks.drop 8).length := by
            rw [hdlen]; omega
          rw [this]
          exact ih (toks.length - 8) (by omega) (toks.drop 8) (i + 8) hdlen (by omega)
        rw [hrec]
        rw [specLayout, specLayout]
        rw [chunksOf8_cons_of_big toks h9]
        obtain ⟨c, cs, hc⟩ := List.exists_cons_of_ne_nil
          (chunksOf8_ne_nil (toks.drop 8) hdne)
        rw [hc]
        show _ = (joinSpace (toks.take 8) ++ " \n" ++ joinNl (joinSpace c :: cs.map joinSpace)) ++ _
        rw [show (" \n" : String) = " " ++ "\n" from rfl]
        simp only [show ((toks.drop 8).length % 8 = 0 ∧ toks.drop 8 ≠ [])
            ↔ (toks.length % 8 = 0 ∧ toks ≠ []) from
          ⟨fun h12 => ⟨by have h1 := h12.1; rw [hdlen] at h1; omega, hne⟩,
           fun h12 => ⟨by have h1 := h12.1; rw [hdlen]; omega, hdne⟩⟩]
        simp only [List.map_cons]
        simp only [String.append_assoc]

/-- Sorting a constant list returns it unchanged (all keys are equal, so
every insertion is immediate). -/
theorem sortNotesByTime_replicate (v : NoteL) : ∀ (k : Nat),
    sortNotesByTime (List.replicate k v) = List.replicate k v := by
  intro k
  induction k with
  | zero => rfl
  | succ k ih =>
    show insertByTime v (sortNotesByTime (List.replicate k v)) = _
    rw [ih]
    cases k with
    | zero => rfl
    | succ k =>
      show insertByTime v (v :: List.replicate k v) = _
      rw [insertByTime, if_pos (le_refl _)]
      rfl

/-- C3 counterexample: a model whose first track has exactly 8 notes; the
output ends in a line break right after the final token, contradicting the
claim that no line break follows the final token when the note count is a
multiple of 8. -/
theorem C3_counterexample :
    convertMidiToABC (some ⟨some "S", 0,
        [⟨none, none, List.replicate 8 ⟨"C4", 60, 0, 1/2, 1⟩⟩]⟩)
      = "X:1\nT:S\nM:4/4\nL:1/4\nK:C\nC C C C C C C C\n"
      ∧ convertMidiToABC (some ⟨some "S", 0,
          [⟨none, none, List.replicate 8 ⟨"C4", 60, 0, 1/2, 1⟩⟩]⟩)
        ≠ "X:1\nT:S\nM:4/4\nL:1/4\nK:C\nC C C C C C C C" := by
  have hd : abcDurationSuffix (1/2) = "" := by norm_num [abcDurationSuffix]
  have htok : convertNoteToABC ⟨"C4", 60, 0, 1/2, 1⟩ = "C" := by
    show abcPitchPart "C4" ++ abcDurationSuffix (1/2) = "C"
    rw [hd, show abcPitchPart "C4" = "C" by decide]
    decide
  have hmain : convertMidiToABC (some ⟨some "S", 0,
      [⟨none, none, List.replicate 8 ⟨"C4", 60, 0, 1/2, 1⟩⟩]⟩)
      = "X:1\nT:S\nM:4/4\nL:1/4\nK:C\nC C C C C C C C\n" := by
    show abcHeader (some "S")
        ++ abcBody (sortNotesByTime (List.replicate 8 ⟨"C4", 60, 0, 1/2, 1⟩)) = _
    rw [sortNotesByTime_replicate]
    rw [abcBody, abcBodyAux_eq_tokAux, List.map_replicate, htok]
    rw [show (List.replicate 8 (⟨"C4", 60, 0, 1/2, 1⟩ : NoteL)).length = 8 from rfl]
    rw [show tokAux 8 0 (List.replicate 8 "C") = "C C C C C C C C\n" by decide]
    decide
  exact ⟨hmain, by rw [hmain]; decide⟩

/-- C3 amended: for every model with at least one track, the ABC output is
the header followed by the sorted note tokens laid out as follows: chunks
of 8 tokens joined by single spaces, a line break after every 8th token
(after its separating space when more tokens follow), and a line break
after the final token exactly when the token count is a nonzero multiple
of 8. -/
theorem C3_amended (m : MidiData) (t0 : TrackL) (rest : List TrackL)
    (h : m.tracks = t0 :: rest) :
    convertMidiToABC (some m)
      = abcHeader m.name
          ++ specLayout ((sortNotesByTime t0.notes).map convertNoteToABC) := by
  have hb : convertMidiToABC (some m)
      = abcHeader m.name ++ abcBody (sortNotesByTime t0.notes) := by
    simp [convertMidiToABC, h]
  rw [hb, abcBody, abcBodyAux_eq_tokAux]
  rw [show (sortNotesByTime t0.notes).length
      = ((sortNotesByTime t0.notes).map convertNoteToABC).length from
    (List.length_map _ _).symm]
  rw [show ((sortNotesByTime t0.notes).map convertNoteToABC).length
      = 0 + ((sortNotesByTime t0.notes).map convertNoteToABC).length from
    (Nat.zero_add _).symm]
  rw [tokAux_specLayout ((sortNotesByTime t0.notes).map convertNoteToABC).length
    ((sortNotesByTime t0.notes).map convertNoteToABC) 0 rfl (by norm_num)]

/-- Witness for C3 amended on a concrete two-note model. -/
theorem C3_amended_witness :
    (⟨some "S", 0, [⟨none, none,
        [⟨"C4", 60, 0, 1/2, 1⟩, ⟨"D4", 62, 1/2, 1/2, 1⟩]⟩]⟩ : MidiData).tracks
        = ⟨none, none, [⟨"C4", 60, 0, 1/2, 1⟩, ⟨"D4", 62, 1/2, 1/2, 1⟩]⟩ :: []
      ∧ convertMidiToABC (some ⟨some "S", 0, [⟨none, none,
            [⟨"C4", 60, 0, 1/2, 1⟩, ⟨"D4", 62, 1/2, 1/2, 1⟩]⟩]⟩)
          = abcHeader (some "S")
              ++ specLayout ((sortNotesByTime
                  [⟨"C4", 60, 0, 1/2, 1⟩, ⟨"D4", 62, 1/2, 1/2, 1⟩]).map convertNoteToABC) :=
  ⟨rfl,
    C3_amended ⟨some "S", 0, [⟨none, none,
        [⟨"C4", 60, 0, 1/2, 1⟩, ⟨"D4", 62, 1/2, 1/2, 1⟩]⟩]⟩
      ⟨none, none, [⟨"C4", 60, 0, 1/2, 1⟩, ⟨"D4", 62, 1/2, 1/2, 1⟩]⟩ [] rfl⟩

end MidiProc
